import Mathlib

/-!
Shallow embedding of the dispatch and lifecycle core of the
`enhanced-embedded-queue` library (src/jobRepository.ts, which also holds the
`Queue` class).  Dates are modelled as `Nat` timestamps, the NeDB document
store as a `List NeDbJob`, and the per-type waiter map as an association list.
Files of the repository that are not in the sources (job.ts, priority.ts,
state.ts, worker.ts) are modelled from the spec where a claim needs them; each
such definition carries a doc comment starting `Modelled from the spec:`.
-/

namespace EmbeddedQueue

/-- Modelled from the spec: the `State` enum of src/state.ts (absent from the
sources): "{INACTIVE, ACTIVE, COMPLETE, FAILURE}". -/
inductive State where
  | INACTIVE
  | ACTIVE
  | COMPLETE
  | FAILURE
deriving DecidableEq, Repr

/-- Modelled from the spec: the `Priority` enum of src/priority.ts (absent from
the sources): "{LOW=10, NORMAL=0, MEDIUM=−5, HIGH=−10, CRITICAL=−15}". -/
def Priority.LOW : Int := 10

/-- Modelled from the spec: see `Priority.LOW`. -/
def Priority.NORMAL : Int := 0

/-- Modelled from the spec: see `Priority.LOW`. -/
def Priority.MEDIUM : Int := -5

/-- Modelled from the spec: see `Priority.LOW`. -/
def Priority.HIGH : Int := -10

/-- Modelled from the spec: see `Priority.LOW`. -/
def Priority.CRITICAL : Int := -15

/-- The persisted document schema, interface `NeDbJob` of src/jobRepository.ts.
`Date` fields are `Nat` timestamps, the opaque `data` blob is `Option String`. -/
structure NeDbJob where
  _id : String
  type : String
  priority : Int
  data : Option String := none
  createdAt : Nat
  updatedAt : Nat
  startedAt : Option Nat := none
  completedAt : Option Nat := none
  failedAt : Option Nat := none
  state : Option State := none
  duration : Option Nat := none
  progress : Option Nat := none
  logs : List String := []
deriving DecidableEq, Repr

/-- The in-memory `Job` entity (fields as constructed by
`Queue.convertNeDbJobToJob` in src/jobRepository.ts). -/
structure Job where
  id : String
  type : String
  priority : Int
  data : Option String := none
  createdAt : Nat
  updatedAt : Nat
  startedAt : Option Nat := none
  completedAt : Option Nat := none
  failedAt : Option Nat := none
  state : Option State := none
  duration : Option Nat := none
  progress : Option Nat := none
  logs : List String := []
  saved : Bool := false
deriving DecidableEq, Repr

/-! ## JobRepository (src/jobRepository.ts) -/

/-- NeDB comparison for the sort `{ priority: -1, createdAt: 1 }` used by
`JobRepository.findInactiveJobByType`: `a` sorts strictly before `b` iff
`a.priority` is larger (descending key) or the priorities tie and `a.createdAt`
is smaller (ascending key). -/
def sortsBefore (a b : NeDbJob) : Bool :=
  b.priority < a.priority || (a.priority == b.priority && a.createdAt < b.createdAt)

/-- One step of taking the head of the stable sort of
`JobRepository.findInactiveJobByType`: keep the better of the best-so-far and
the next document, the earlier one on a full tie. -/
def pickBest (best : Option NeDbJob) (j : NeDbJob) : Option NeDbJob :=
  match best with
  | none => some j
  | some b => if sortsBefore j b then some j else some b

/-- `JobRepository.findInactiveJobByType(type)`:
`db.find({type, state: INACTIVE}).sort({priority: -1, createdAt: 1}).limit(1)`.
The head of a stable sort is the fold that keeps the earlier element on a
full tie. -/
def findInactiveJobByType (db : List NeDbJob) (ty : String) : Option NeDbJob :=
  (db.filter (fun j => j.type == ty && j.state == some State.INACTIVE)).foldl pickBest none

/-- Stable insertion into a list ascending in `createdAt` (NeDB sort
`{ createdAt: 1 }` is stable). -/
def insertByCreatedAt (d : NeDbJob) : List NeDbJob → List NeDbJob
  | [] => [d]
  | e :: es =>
    if d.createdAt ≤ e.createdAt then d :: e :: es else e :: insertByCreatedAt d es

/-- `JobRepository.listJobs(state?)`: all documents, optionally filtered by
state, sorted by `createdAt` ascending. -/
def listJobsDocs (db : List NeDbJob) (st : Option State) : List NeDbJob :=
  (match st with
   | none => db
   | some s => db.filter (fun d => d.state == some s)).foldr insertByCreatedAt []

/-- `JobRepository.findJob(id)`: `db.findOne({_id: id})`. -/
def findJobDoc (db : List NeDbJob) (i : String) : Option NeDbJob :=
  db.find? (fun d => d._id == i)

/-- The `insertDoc` built by `JobRepository.addJob` (only these fields are
persisted on insert). -/
def insertDoc (job : Job) : NeDbJob :=
  { _id := job.id, type := job.type, priority := job.priority, data := job.data,
    createdAt := job.createdAt, updatedAt := job.updatedAt, state := job.state,
    logs := job.logs }

/-- The `$set` document of `JobRepository.updateJob`, applied to a stored row
(`_id` is not part of the `$set`). -/
def applyUpdateSet (job : Job) (d : NeDbJob) : NeDbJob :=
  { d with
    priority := job.priority, data := job.data, createdAt := job.createdAt,
    updatedAt := job.updatedAt, startedAt := job.startedAt,
    completedAt := job.completedAt, failedAt := job.failedAt, state := job.state,
    duration := job.duration, progress := job.progress, logs := job.logs }

/-- `JobRepository.updateJob(job)`: `db.update({_id: job.id}, {$set: …}, {})`,
then `throw` when the number of affected rows is not 1.  NeDB updates at most
one document without the `multi` flag, and `_id` is its unique primary key, so
the affected count is 1 when a row with the id exists and 0 otherwise. -/
def updateJob (db : List NeDbJob) (job : Job) : Except String (List NeDbJob) :=
  let numAffected : Nat := if db.any (fun d => d._id == job.id) then 1 else 0
  if numAffected ≠ 1 then
    .error ("update unexpected number of rows. (expected: 1, actual: " ++
      toString numAffected ++ ")")
  else
    .ok (db.map (fun d => if d._id == job.id then applyUpdateSet job d else d))

/-- `JobRepository.removeJob(id)`: `db.remove({_id: id}, {})`; silent when the
id is absent. -/
def removeJobDoc (db : List NeDbJob) (i : String) : List NeDbJob :=
  db.filter (fun d => d._id != i)

/-! ## Queue: priority sanitizing and document conversion -/

/-- The switch cases of `Queue.sanitizePriority`: whether `p` is one of the
known `Priority` values. -/
def knownPriority (p : Int) : Bool :=
  p == Priority.LOW || p == Priority.NORMAL || p == Priority.MEDIUM ||
  p == Priority.HIGH || p == Priority.CRITICAL

/-- `Queue.sanitizePriority(priority)`: known values pass through; any other
value falls through the switch and `Priority.NORMAL` is returned. -/
def sanitizePriority (p : Int) : Int :=
  if knownPriority p then p else Priority.NORMAL

/-- Whether `Queue.sanitizePriority` hits its `console.warn` line: exactly when
the value is not a known `Priority`. -/
def sanitizeWarned (p : Int) : Bool :=
  !(knownPriority p)

/-- `Queue.convertNeDbJobToJob(neDbJob)`: materialize a stored document as a
`Job`, sanitizing the priority and marking it saved. -/
def convertNeDbJobToJob (d : NeDbJob) : Job :=
  { id := d._id, type := d.type, priority := sanitizePriority d.priority,
    data := d.data, createdAt := d.createdAt, updatedAt := d.updatedAt,
    startedAt := d.startedAt, completedAt := d.completedAt, failedAt := d.failedAt,
    state := d.state, duration := d.duration, progress := d.progress,
    logs := d.logs, saved := true }

/-- Modelled from the spec: `createJob`'s priority handling (src/job.ts, which
builds the `Job` from `CreateJobData`, is absent from the sources): "priority
defaults to NORMAL if omitted (coerced via the same sanitizer used on load)". -/
def createJobPriority (p : Option Int) : Int :=
  sanitizePriority (p.getD Priority.NORMAL)

/-! ## Job state transitions (src/job.ts is absent; modelled from the spec) -/

/-- Modelled from the spec: `Job.setStateToActive` (src/job.ts is absent from
the sources): "legal only from INACTIVE; sets state=ACTIVE, startedAt=now,
updatedAt=now, persists. Fails otherwise."  Persistence is the caller's
`updateJob` step. -/
def setStateToActive (job : Job) (now : Nat) : Except String Job :=
  if job.state = some State.INACTIVE then
    .ok { job with state := some State.ACTIVE, startedAt := some now, updatedAt := now }
  else
    .error "invalid state transition"

/-- Modelled from the spec: `Job.setStateToFailure` (src/job.ts is absent from
the sources): "sets state=FAILURE, failedAt=now, duration=failedAt−startedAt,
appends error message to logs, persists."  Persistence is the caller's
`updateJob` step. -/
def setStateToFailure (job : Job) (msg : String) (now : Nat) : Job :=
  { job with
    state := some State.FAILURE, failedAt := some now,
    duration := job.startedAt.map (fun s => now - s),
    logs := job.logs ++ [msg] }

/-! ## Crash recovery (Queue.cleanupAfterUnexpectedlyTermination) -/

/-- The error message of `new Error("unexpectedly termination")` at the
`setStateToFailure` call of `Queue.cleanupAfterUnexpectedlyTermination`. -/
def cleanupMessage : String := "unexpectedly termination"

/-- One persisted write keyed by `job.id` (the success case of `updateJob`;
crash recovery writes rows it just listed, so the row exists). -/
def writeRow (db : List NeDbJob) (job : Job) : List NeDbJob :=
  db.map (fun d => if d._id == job.id then applyUpdateSet job d else d)

/-- `Queue.cleanupAfterUnexpectedlyTermination`: list jobs with state=ACTIVE,
and for each one run `setStateToFailure(new Error("unexpectedly termination"))`,
which persists through `updateJob`. -/
def cleanupAfterUnexpectedlyTermination (db : List NeDbJob) (now : Nat) : List NeDbJob :=
  (listJobsDocs db (some State.ACTIVE)).foldl
    (fun cur d => writeRow cur (setStateToFailure (convertNeDbJobToJob d) cleanupMessage now))
    db

/-- `Queue.createQueue`: construct the queue, `repository.init()`, then run
`cleanupAfterUnexpectedlyTermination` exactly once; the db after creation is
the cleaned-up db. -/
def createQueueDb (db : List NeDbJob) (now : Nat) : List NeDbJob :=
  cleanupAfterUnexpectedlyTermination db now

/-- The pointwise effect of crash recovery on one stored row: an ACTIVE row
receives the persisted fields of its failed materialization; any other row is
untouched. -/
def cleanupRow (now : Nat) (d : NeDbJob) : NeDbJob :=
  if d.state = some State.ACTIVE then
    applyUpdateSet (setStateToFailure (convertNeDbJobToJob d) cleanupMessage now) d
  else d

/-! ## Waiter map and dispatch (Queue.requestJobForProcessing / Queue.addJob) -/

/-- A `WaitingWorkerRequest`: the continuation pair is identified by `wid`, and
`stillRequest` is the value the predicate reports when the queue calls it. -/
structure Waiter where
  wid : Nat
  stillRequest : Bool
deriving DecidableEq, Repr

/-- The `Queue` state the dispatch core manipulates: the repository documents
and `waitingRequests`, the mapping from job type to its FIFO of waiters (a
JavaScript object: a key may be absent, or present with a list). -/
structure QueueSt where
  db : List NeDbJob
  waiting : List (String × List Waiter)
deriving DecidableEq, Repr

/-- `this.waitingRequests[type]`: `none` when the key is undefined. -/
def getWaiting (st : QueueSt) (ty : String) : Option (List Waiter) :=
  st.waiting.lookup ty

/-- Store `l` under key `ty` in the waiter map (assign to
`this.waitingRequests[type]`). -/
def updWaiting : List (String × List Waiter) → String → List Waiter → List (String × List Waiter)
  | [], ty, l => [(ty, l)]
  | (k, v) :: rest, ty, l =>
    if k == ty then (ty, l) :: rest else (k, v) :: updWaiting rest ty l

/-- What one call to `Queue.requestJobForProcessing` produces: a pending
promise whose waiter was appended to the FIFO, a claimed ACTIVE job, the
`null` return of the lost-interest path, or a thrown error. -/
inductive ReqOutcome where
  | parked (w : Waiter)
  | claimed (j : Job)
  | nullReturned
  | errored (e : String)
deriving DecidableEq, Repr

/-- The part of `Queue.requestJobForProcessing` inside the dispatch mutex:
query `findInactiveJobByType`; when no candidate, initialize the FIFO if
undefined and park; when a candidate exists, claim it iff `stillRequest()`. -/
def requestSlow (st : QueueSt) (ty : String) (w : Waiter) (now : Nat) :
    ReqOutcome × QueueSt :=
  match findInactiveJobByType st.db ty with
  | none =>
    let l := (getWaiting st ty).getD []
    (.parked w, { st with waiting := updWaiting st.waiting ty (l ++ [w]) })
  | some d =>
    if w.stillRequest then
      match setStateToActive (convertNeDbJobToJob d) now with
      | .error e => (.errored e, st)
      | .ok job =>
        match updateJob st.db job with
        | .error e => (.errored e, st)
        | .ok db2 => (.claimed job, { st with db := db2 })
    else
      (.nullReturned, st)

/-- `Queue.requestJobForProcessing(type, stillRequest)`: fast-park when the
FIFO for the type already has waiters; otherwise take the mutex and run the
slow path. -/
def requestJobForProcessing (st : QueueSt) (ty : String) (w : Waiter) (now : Nat) :
    ReqOutcome × QueueSt :=
  match getWaiting st ty with
  | some l =>
    if l.length > 0 then
      (.parked w, { st with waiting := updWaiting st.waiting ty (l ++ [w]) })
    else
      requestSlow st ty w now
  | none => requestSlow st ty w now

/-- The shift-loop of `Queue.addJob`: pop waiters from the head until one
reports `stillRequest()` true or the FIFO is exhausted; returns the found
waiter (if any) and the remaining FIFO. -/
def popUntilInterested : List Waiter → Option Waiter × List Waiter
  | [] => (none, [])
  | w :: ws => if w.stillRequest then (some w, ws) else popUntilInterested ws

/-- What one call to `Queue.addJob` produces besides the new state: the
outcome of the promise, which continuations were resolved synchronously,
which were scheduled through `process.nextTick`, and which were rejected. -/
structure AddOutcome where
  result : Except String Unit
  resolvedNow : List (Waiter × Job) := []
  resolvedDeferred : List (Waiter × Job) := []
  rejected : List Waiter := []
deriving Repr

/-- `Queue.addJob(job)`: insert the document (NeDB rejects an `_id`
collision); return early when `waitingRequests[job.type]` is undefined; shift
disinterested waiters off the head; when a willing waiter is found, set the
job ACTIVE (persisted) and schedule its `resolve(addedJob)` via
`process.nextTick`. -/
def addJob (st : QueueSt) (job : Job) (now : Nat) : AddOutcome × QueueSt :=
  if st.db.any (fun r => r._id == job.id) then
    ({ result := .error "Can't insert key, unique constraint violated" }, st)
  else
    let d := insertDoc job
    let db1 := st.db ++ [d]
    match getWaiting st job.type with
    | none => ({ result := .ok () }, { st with db := db1 })
    | some l =>
      let pop := popUntilInterested l
      let waiting1 := updWaiting st.waiting job.type pop.2
      match pop.1 with
      | none => ({ result := .ok () }, { st with db := db1, waiting := waiting1 })
      | some w =>
        match setStateToActive (convertNeDbJobToJob d) now with
        | .error e => ({ result := .error e }, { st with db := db1, waiting := waiting1 })
        | .ok addedJob =>
          match updateJob db1 addedJob with
          | .error e => ({ result := .error e }, { st with db := db1, waiting := waiting1 })
          | .ok db2 =>
            ({ result := .ok (), resolvedDeferred := [(w, addedJob)] },
             { st with db := db2, waiting := waiting1 })

/-- The in-memory job handed to a waiter by the `addJob` handoff: the inserted
document materialized and set ACTIVE at time `now`. -/
def activeVersion (job : Job) (now : Nat) : Job :=
  { convertNeDbJobToJob (insertDoc job) with
    state := some State.ACTIVE, startedAt := some now, updatedAt := now }

/-! ## Error propagation of the Queue public methods

Each public method of `Queue` wraps its job/storage operations in
`try { … } catch (error) { this.emit(Event.Error, error[, job]); throw error }`.
The fallible sub-operations are injected as `Except` values so that both the
success path and every failure path of the control flow are covered. -/

/-- An `Event.Error` emission: the error and, when the method has one at hand,
the affected `Job`. -/
inductive Emitted where
  | errorEv (e : String) (j : Option Job)
deriving DecidableEq, Repr

/-- The `try/catch` pattern shared by the `Queue` methods: on success no event;
on error, emit `Event.Error` with the error (and the job when applicable) and
re-throw the same error. -/
def catchEmit {α : Type} (j : Option Job) (body : Except String α) :
    Except String α × List Emitted :=
  match body with
  | .ok a => (.ok a, [])
  | .error e => (.error e, [.errorEv e j])

/-- `Queue.findJob(id)`: convert the found document inside the try block. -/
def findJobQ (repoRes : Except String (Option NeDbJob)) :
    Except String (Option Job) × List Emitted :=
  catchEmit none (repoRes.map (fun o => o.map convertNeDbJobToJob))

/-- `Queue.listJobs(state?)`: convert each document inside the try block. -/
def listJobsQ (repoRes : Except String (List NeDbJob)) :
    Except String (List Job) × List Emitted :=
  catchEmit none (repoRes.map (fun ds => ds.map convertNeDbJobToJob))

/-- `Queue.updateJob(job)`: delegate to the repository; the catch carries the
job. -/
def updateJobQ (job : Job) (repoRes : Except String Unit) :
    Except String Unit × List Emitted :=
  catchEmit (some job) repoRes

/-- `Queue.removeJob(job)`: delegate to the repository; the catch carries the
job. -/
def removeJobQ (job : Job) (repoRes : Except String Unit) :
    Except String Unit × List Emitted :=
  catchEmit (some job) repoRes

/-- `Queue.removeJobById(id)`: a first try/catch around the repository find
(no job at hand), an uncaught `throw` when the id is absent, then a second
try/catch around `job.remove()` carrying the job. -/
def removeJobByIdQ (findRes : Except String (Option NeDbJob))
    (rm : Job → Except String Unit) (i : String) :
    Except String Unit × List Emitted :=
  match catchEmit none findRes with
  | (.error e, evs) => (.error e, evs)
  | (.ok none, evs) => (.error ("Job(id:" ++ i ++ ") is not found."), evs)
  | (.ok (some d), evs) =>
    let job := convertNeDbJobToJob d
    let res2 := catchEmit (some job) (rm job)
    (res2.1, evs ++ res2.2)

/-- The iteration of `Queue.removeJobsByCallback` over the listed snapshot:
materialize each document, test the callback, push and remove on a truthy
result; the single catch around the whole loop emits `Event.Error` with the
job in scope and re-throws, discarding the accumulated `removedJobs`. -/
def removeJobsByCallbackGo (cb : Job → Except String Bool)
    (rm : Job → Except String Unit) :
    List NeDbJob → List NeDbJob → List Job →
    Except String (List Job) × List NeDbJob × List Emitted
  | [], db, removed => (.ok removed.reverse, db, [])
  | d :: rest, db, removed =>
    let job := convertNeDbJobToJob d
    match cb job with
    | .error e => (.error e, db, [.errorEv e (some job)])
    | .ok true =>
      match rm job with
      | .error e => (.error e, db, [.errorEv e (some job)])
      | .ok _ => removeJobsByCallbackGo cb rm rest (removeJobDoc db job.id) (job :: removed)
    | .ok false => removeJobsByCallbackGo cb rm rest db removed

/-- `Queue.removeJobsByCallback(callback)`: list a snapshot (a failure there is
caught with no job in scope), then iterate. -/
def removeJobsByCallbackQ (listRes : Except String (List NeDbJob))
    (cb : Job → Except String Bool) (rm : Job → Except String Unit)
    (db : List NeDbJob) :
    Except String (List Job) × List NeDbJob × List Emitted :=
  match listRes with
  | .error e => (.error e, db, [.errorEv e none])
  | .ok snapshot => removeJobsByCallbackGo cb rm snapshot db []

/-- The try/catch of `Queue.requestJobForProcessing` around its mutex-guarded
body (whose storage operations may fail): a thrown error is emitted as
`Event.Error` with no job at hand and re-thrown to the caller. -/
def requestJobCatch (body : Except String (Option Job)) :
    Except String (Option Job) × List Emitted :=
  catchEmit none body

/-- The catch block of `Queue.addJob`: a thrown error is emitted as
`Event.Error` carrying the job being added, and re-thrown. -/
def addJobQ (st : QueueSt) (job : Job) (now : Nat) :
    (AddOutcome × QueueSt) × List Emitted :=
  match (addJob st job now).1.result with
  | .error e => (addJob st job now, [.errorEv e (some job)])
  | .ok _ => (addJob st job now, [])

/-- The documents removed by the truthy prefix of a `removeJobsByCallback`
iteration that stops part-way. -/
def removedPrefixDb (cb : Job → Except String Bool) (db : List NeDbJob)
    (pre : List NeDbJob) : List NeDbJob :=
  pre.foldl
    (fun cur x =>
      match cb (convertNeDbJobToJob x) with
      | .ok true => removeJobDoc cur x._id
      | _ => cur)
    db

/-! ## The workers getter (reference model of JavaScript array identity)

`get workers()` is `return [...this._workers]`.  To state what the spread copy
means, arrays are modelled as references into a heap of array cells: the
registry `this._workers` is one cell, the getter allocates a fresh cell holding
a copy of the registry's contents, and mutation acts on one cell. -/

/-- A worker as registered by `Queue.process` (src/worker.ts is absent from the
sources; only the per-type identity matters here). -/
structure WorkerHandle where
  wtype : String
deriving DecidableEq, Repr

/-- A heap of JavaScript arrays of workers; an array reference is an index. -/
structure ArrHeap where
  cells : List (List WorkerHandle)
deriving Repr

/-- Dereference an array. -/
def readArr (h : ArrHeap) (r : Nat) : List WorkerHandle :=
  h.cells.getD r []

/-- Mutate the array behind reference `r` in place. -/
def writeArr (h : ArrHeap) (r : Nat) (v : List WorkerHandle) : ArrHeap :=
  ⟨h.cells.set r v⟩

/-- Allocate a fresh array holding `v`. -/
def allocArr (h : ArrHeap) (v : List WorkerHandle) : Nat × ArrHeap :=
  (h.cells.length, ⟨h.cells ++ [v]⟩)

/-- `get workers()`: `return [...this._workers]` — allocate a fresh array
whose contents are copied from the registry cell `reg`. -/
def workersGetter (h : ArrHeap) (reg : Nat) : Nat × ArrHeap :=
  allocArr h (readArr h reg)

/-! ## Concrete inputs used by witnesses and counterexamples -/

/-- An INACTIVE job of type "t" with LOW priority (numeric 10), created later. -/
def docA : NeDbJob :=
  { _id := "a", type := "t", priority := 10, createdAt := 2, updatedAt := 2,
    state := some State.INACTIVE }

/-- An INACTIVE job of type "t" with NORMAL priority (numeric 0), created
earlier. -/
def docB : NeDbJob :=
  { _id := "b", type := "t", priority := 0, createdAt := 1, updatedAt := 1,
    state := some State.INACTIVE }

/-- An ACTIVE job as left behind by a crashed process. -/
def docActive : NeDbJob :=
  { _id := "x", type := "t", priority := 0, createdAt := 0, updatedAt := 0,
    startedAt := some 2, state := some State.ACTIVE }

/-- A queue state whose type-"t" FIFO already holds one waiter. -/
def qStWaiters : QueueSt :=
  { db := [], waiting := [("t", [⟨7, true⟩])] }

/-- A queue state with inactive candidates and an empty waiter map. -/
def qStEmpty : QueueSt :=
  { db := [docA, docB], waiting := [] }

/-- A queue state whose type-"t" FIFO holds a disinterested waiter ahead of a
willing one. -/
def qStPark : QueueSt :=
  { db := [], waiting := [("t", [⟨1, false⟩, ⟨2, true⟩])] }

/-- A fresh unsaved job about to be added. -/
def jobNew : Job :=
  { id := "n", type := "t", priority := 0, createdAt := 3, updatedAt := 3,
    state := some State.INACTIVE }

/-- A removal predicate that selects job "a" and throws "boom" on anything
else. -/
def cbBoom : Job → Except String Bool :=
  fun j => if j.id = "a" then .ok true else .error "boom"

/-- A removal operation that always succeeds. -/
def rmOk : Job → Except String Unit :=
  fun _ => .ok ()

/-- A removal operation that always throws "boom". -/
def rmBoom : Job → Except String Unit :=
  fun _ => .error "boom"

/-- A queue state whose store already holds the row of `jobNew`, so that a
second insert collides. -/
def qStDup : QueueSt :=
  { db := [insertDoc jobNew], waiting := [] }

/-! ## Lemmas on the fetch order -/

lemma sortsBefore_eq_true_iff (a b : NeDbJob) :
    sortsBefore a b = true ↔
      b.priority < a.priority ∨
        (a.priority = b.priority ∧ a.createdAt < b.createdAt) := by
  simp [sortsBefore]

lemma sortsBefore_eq_false_iff (a b : NeDbJob) :
    sortsBefore a b = false ↔
      a.priority ≤ b.priority ∧ (a.priority = b.priority → b.createdAt ≤ a.createdAt) := by
  rw [← Bool.not_eq_true, sortsBefore_eq_true_iff]
  constructor
  · intro h
    constructor
    · by_contra hlt
      exact h (Or.inl (by omega))
    · intro heq
      by_contra hca
      exact h (Or.inr ⟨heq, by omega⟩)
  · rintro ⟨h1, h2⟩ (h | ⟨heq, hca⟩)
    · omega
    · have := h2 heq
      omega

lemma sortsBefore_self (a : NeDbJob) : sortsBefore a a = false := by
  rw [sortsBefore_eq_false_iff]
  exact ⟨le_refl _, fun _ => le_refl _⟩

lemma sortsBefore_false_trans {a b c : NeDbJob}
    (h1 : sortsBefore a b = false) (h2 : sortsBefore b c = false) :
    sortsBefore a c = false := by
  rw [sortsBefore_eq_false_iff] at h1 h2 ⊢
  obtain ⟨p1, c1⟩ := h1
  obtain ⟨p2, c2⟩ := h2
  refine ⟨le_trans p1 p2, fun hac => ?_⟩
  have hab : a.priority = b.priority := by omega
  have hbc : b.priority = c.priority := by omega
  exact le_trans (c2 hbc) (c1 hab)

lemma sortsBefore_discard {a b j : NeDbJob}
    (h1 : sortsBefore a b = true) (h2 : sortsBefore a j = false) :
    sortsBefore b j = false := by
  rw [sortsBefore_eq_true_iff] at h1
  rw [sortsBefore_eq_false_iff] at h2 ⊢
  obtain ⟨p2, c2⟩ := h2
  rcases h1 with h | ⟨heq, hca⟩
  · constructor
    · omega
    · intro hbj
      omega
  · refine ⟨by omega, fun hbj => ?_⟩
    have : a.priority = j.priority := by omega
    have := c2 this
    omega

lemma foldl_pickBest_mem :
    ∀ (L : List NeDbJob) (acc : Option NeDbJob) (j : NeDbJob),
      L.foldl pickBest acc = some j → acc = some j ∨ j ∈ L := by
  intro L
  induction L with
  | nil => intro acc j h; exact Or.inl h
  | cons a L ih =>
    intro acc j h
    rcases ih (pickBest acc a) j h with h' | h'
    · match acc with
      | none =>
        simp [pickBest] at h'
        exact Or.inr (by simp [h'])
      | some b =>
        simp only [pickBest] at h'
        by_cases hs : sortsBefore a b = true
        · rw [if_pos hs] at h'
          exact Or.inr (by simp [Option.some.injEq] at h'; simp [h'])
        · rw [if_neg hs] at h'
          exact Or.inl h'
    · exact Or.inr (List.mem_cons_of_mem a h')

lemma foldl_pickBest_ne_none :
    ∀ (L : List NeDbJob) (acc : Option NeDbJob),
      L.foldl pickBest acc = none → acc = none ∧ L = [] := by
  intro L
  induction L with
  | nil => intro acc h; exact ⟨h, rfl⟩
  | cons a L ih =>
    intro acc h
    have := (ih (pickBest acc a) h).1
    exfalso
    match acc with
    | none => simp [pickBest] at this
    | some b =>
      simp only [pickBest] at this
      by_cases hs : sortsBefore a b = true
      · rw [if_pos hs] at this; exact Option.noConfusion this
      · rw [if_neg hs] at this; exact Option.noConfusion this

lemma foldl_pickBest_acc :
    ∀ (L : List NeDbJob) (b j : NeDbJob),
      L.foldl pickBest (some b) = some j → sortsBefore b j = false := by
  intro L
  induction L with
  | nil =>
    intro b j h
    simp only [List.foldl_nil, Option.some.injEq] at h
    rw [← h]
    exact sortsBefore_self b
  | cons a L ih =>
    intro b j h
    simp only [List.foldl_cons, pickBest] at h
    by_cases hs : sortsBefore a b = true
    · rw [if_pos hs] at h
      exact sortsBefore_discard hs (ih a j h)
    · rw [if_neg hs] at h
      exact ih b j h

lemma foldl_pickBest_best :
    ∀ (L : List NeDbJob) (acc : Option NeDbJob) (j : NeDbJob),
      L.foldl pickBest acc = some j → ∀ k ∈ L, sortsBefore k j = false := by
  intro L
  induction L with
  | nil => intro acc j _ k hk; exact absurd hk (List.not_mem_nil k)
  | cons a L ih =>
    intro acc j h k hk
    rcases List.mem_cons.mp hk with rfl | hk'
    · have hstep : ∃ c, pickBest acc k = some c ∧ sortsBefore k c = false := by
        match acc with
        | none => exact ⟨k, rfl, sortsBefore_self k⟩
        | some b =>
          by_cases hs : sortsBefore k b = true
          · exact ⟨k, by simp [pickBest, hs], sortsBefore_self k⟩
          · exact ⟨b, by simp [pickBest, hs], by simpa using hs⟩
      obtain ⟨c, hc, hkc⟩ := hstep
      rw [List.foldl_cons, hc] at h
      exact sortsBefore_false_trans hkc (foldl_pickBest_acc L c j h)
    · exact ih (pickBest acc a) j h k hk'

/-! ## C1 -/

/-- C1 counterexample: the claim says `findNextInactiveByType` returns the
INACTIVE job with the smallest numeric priority value, but on a store holding
INACTIVE type-"t" jobs of priorities 10 and 0 the code's sort
`{priority: -1, createdAt: 1}` (priority descending) returns the job of
priority 10, not the one of priority 0. -/
theorem C1_counterexample :
    findInactiveJobByType [docA, docB] "t" = some docA ∧
    docA.priority = 10 ∧ docB.priority = 0 ∧
    docB.type = "t" ∧ docB.state = some State.INACTIVE ∧
    ¬docA.priority ≤ docB.priority := by
  decide

/-- C1 (amended): `Repository.findNextInactiveByType(type)`
(`JobRepository.findInactiveJobByType`) returns an INACTIVE job of that type
with the LARGEST numeric priority value, breaking ties by smallest `createdAt`
(oldest first), or none exactly when no INACTIVE job of that type exists. -/
theorem C1_findInactive_largest_priority (db : List NeDbJob) (ty : String) :
    (∀ j, findInactiveJobByType db ty = some j →
      j ∈ db ∧ j.type = ty ∧ j.state = some State.INACTIVE ∧
      ∀ k ∈ db, k.type = ty → k.state = some State.INACTIVE →
        k.priority ≤ j.priority ∧
          (k.priority = j.priority → j.createdAt ≤ k.createdAt)) ∧
    (findInactiveJobByType db ty = none ↔
      ∀ k ∈ db, k.type = ty → k.state ≠ some State.INACTIVE) := by
  constructor
  · intro j hj
    have hmem : j ∈ db.filter (fun k => k.type == ty && k.state == some State.INACTIVE) := by
      rcases foldl_pickBest_mem _ none j hj with h | h
      · exact Option.noConfusion h
      · exact h
    have hj' := List.mem_filter.mp hmem
    have hty : j.type = ty := by
      have := hj'.2
      simp only [Bool.and_eq_true, beq_iff_eq] at this
      exact this.1
    have hst : j.state = some State.INACTIVE := by
      have := hj'.2
      simp only [Bool.and_eq_true, beq_iff_eq] at this
      exact this.2
    refine ⟨hj'.1, hty, hst, ?_⟩
    intro k hk hkty hkst
    have hkmem : k ∈ db.filter (fun k => k.type == ty && k.state == some State.INACTIVE) := by
      rw [List.mem_filter]
      exact ⟨hk, by simp [hkty, hkst]⟩
    have := foldl_pickBest_best _ none j hj k hkmem
    rw [sortsBefore_eq_false_iff] at this
    exact this
  · constructor
    · intro h k hk hkty hkst
      have hkmem : k ∈ db.filter (fun k => k.type == ty && k.state == some State.INACTIVE) := by
        rw [List.mem_filter]
        exact ⟨hk, by simp [hkty, hkst]⟩
      have := foldl_pickBest_ne_none _ none h
      rw [this.2] at hkmem
      exact absurd hkmem (List.not_mem_nil k)
    · intro h
      have hfil : db.filter (fun k => k.type == ty && k.state == some State.INACTIVE) = [] := by
        rw [List.filter_eq_nil_iff]
        intro k hk
        simp only [Bool.and_eq_true, beq_iff_eq, not_and]
        intro hkty
        exact fun hkst => h k hk hkty hkst
      unfold findInactiveJobByType
      rw [hfil]
      rfl

/-- C1 witness: the amended theorem evaluated on the two-job store. -/
theorem C1_findInactive_largest_priority_witness :
    findInactiveJobByType [docA, docB] "t" = some docA ∧
    docB.priority ≤ docA.priority ∧
    docA ∈ [docA, docB] := by
  have h := (C1_findInactive_largest_priority [docA, docB] "t").1 docA (by decide)
  refine ⟨by decide, ?_, h.1⟩
  exact (h.2.2.2 docB (by decide) (by decide) (by decide)).1

/-! ## Lemmas on crash recovery -/

lemma applyUpdateSet_id (job : Job) (d : NeDbJob) :
    (applyUpdateSet job d)._id = d._id := rfl

lemma failRow_id (d : NeDbJob) (m : String) (n : Nat) :
    (setStateToFailure (convertNeDbJobToJob d) m n).id = d._id := rfl

lemma foldl_writeRow_eq_map (f : NeDbJob → Job) :
    ∀ (L db : List NeDbJob),
      L.foldl (fun cur d => writeRow cur (f d)) db =
        db.map (fun r =>
          L.foldl
            (fun r' d => if r'._id == (f d).id then applyUpdateSet (f d) r' else r') r) := by
  intro L
  induction L with
  | nil => intro db; simp
  | cons d L ih =>
    intro db
    rw [List.foldl_cons, ih, writeRow, List.map_map]
    rfl

lemma foldl_row_no_hit (f : NeDbJob → Job) :
    ∀ (L : List NeDbJob) (r : NeDbJob), (∀ d ∈ L, (f d).id ≠ r._id) →
      L.foldl
        (fun r' d => if r'._id == (f d).id then applyUpdateSet (f d) r' else r') r = r := by
  intro L
  induction L with
  | nil => intro r _; rfl
  | cons a L ih =>
    intro r h
    rw [List.foldl_cons]
    have ha : (r._id == (f a).id) = false := by
      have := h a (List.mem_cons_self a L)
      simp [beq_iff_eq]
      exact fun he => this he.symm
    rw [if_neg (by simp [ha])]
    exact ih r (fun d hd => h d (List.mem_cons_of_mem a hd))

lemma foldl_row_single_hit (f : NeDbJob → Job) (L1 L2 : List NeDbJob) (d0 r : NeDbJob)
    (h1 : ∀ d ∈ L1, (f d).id ≠ r._id) (h2 : ∀ d ∈ L2, (f d).id ≠ r._id)
    (h0 : (f d0).id = r._id) :
    (L1 ++ d0 :: L2).foldl
      (fun r' d => if r'._id == (f d).id then applyUpdateSet (f d) r' else r') r =
      applyUpdateSet (f d0) r := by
  rw [List.foldl_append, foldl_row_no_hit f L1 r h1, List.foldl_cons,
    if_pos (by simp [beq_iff_eq, h0])]
  exact foldl_row_no_hit f L2 _ (fun d hd => by
    rw [applyUpdateSet_id]
    exact h2 d hd)

lemma insertByCreatedAt_perm (d : NeDbJob) :
    ∀ l : List NeDbJob, (insertByCreatedAt d l).Perm (d :: l) := by
  intro l
  induction l with
  | nil => exact List.Perm.refl _
  | cons e es ih =>
    rw [insertByCreatedAt]
    by_cases h : d.createdAt ≤ e.createdAt
    · rw [if_pos h]
    · rw [if_neg h]
      exact ((ih.cons e).trans (List.Perm.swap d e es))

lemma foldr_insert_perm :
    ∀ l : List NeDbJob, (l.foldr insertByCreatedAt []).Perm l := by
  intro l
  induction l with
  | nil => exact List.Perm.refl _
  | cons e es ih =>
    rw [List.foldr_cons]
    exact (insertByCreatedAt_perm e _).trans (ih.cons e)

lemma listJobsDocs_perm (db : List NeDbJob) (s : State) :
    (listJobsDocs db (some s)).Perm (db.filter (fun d => d.state == some s)) := by
  unfold listJobsDocs
  exact foldr_insert_perm _

lemma mem_listJobsDocs {db : List NeDbJob} {s : State} {d : NeDbJob} :
    d ∈ listJobsDocs db (some s) ↔ d ∈ db ∧ d.state = some s := by
  rw [(listJobsDocs_perm db s).mem_iff, List.mem_filter]
  simp [beq_iff_eq]

/-! ## C2 -/

/-- C2 counterexample: the claim says crash recovery fails ACTIVE jobs with the
error "unexpectedly terminated", but the code constructs
`new Error("unexpectedly termination")`: on a store with one ACTIVE job, the
recovered row's log carries "unexpectedly termination", which is not
"unexpectedly terminated". -/
theorem C2_counterexample :
    (createQueueDb [docActive] 5).map (fun d => d.logs) = [[cleanupMessage]] ∧
    (createQueueDb [docActive] 5).map (fun d => d.state) = [some State.FAILURE] ∧
    cleanupMessage = "unexpectedly termination" ∧
    cleanupMessage ≠ "unexpectedly terminated" := by
  decide

/-- C2 (amended): during Queue creation, after `Repository.init`, crash
recovery runs exactly once: every job whose persisted state is ACTIVE is
transitioned to FAILURE with error "unexpectedly termination" (failedAt set,
the message appended to its logs), and all jobs in other states are left
unchanged — the resulting store is the pointwise image of `cleanupRow`. -/
theorem C2_crash_recovery (db : List NeDbJob) (now : Nat)
    (h : (db.map (fun d => d._id)).Nodup) :
    createQueueDb db now = db.map (cleanupRow now) ∧
    (∀ d, d.state ≠ some State.ACTIVE → cleanupRow now d = d) ∧
    (∀ d, d.state = some State.ACTIVE →
      (cleanupRow now d).state = some State.FAILURE ∧
      (cleanupRow now d).logs = d.logs ++ [cleanupMessage] ∧
      (cleanupRow now d).failedAt = some now ∧
      (cleanupRow now d)._id = d._id ∧ (cleanupRow now d).type = d.type) := by
  refine ⟨?_, ?_, ?_⟩
  · unfold createQueueDb cleanupAfterUnexpectedlyTermination
    rw [foldl_writeRow_eq_map (fun d => setStateToFailure (convertNeDbJobToJob d) cleanupMessage now)]
    apply List.map_congr_left
    intro r hr
    by_cases hrs : r.state = some State.ACTIVE
    · have hrL : r ∈ listJobsDocs db (some State.ACTIVE) := mem_listJobsDocs.mpr ⟨hr, hrs⟩
      obtain ⟨L1, L2, hsplit⟩ := List.append_of_mem hrL
      have hnl : ((listJobsDocs db (some State.ACTIVE)).map (fun d => d._id)).Nodup := by
        refine ((listJobsDocs_perm db State.ACTIVE).map (fun d => d._id)).nodup_iff.mpr ?_
        exact List.Nodup.sublist ((List.filter_sublist db).map (fun d => d._id)) h
      rw [hsplit] at hnl
      rw [List.map_append, List.map_cons] at hnl
      have hmid := List.nodup_middle.mp hnl
      have hnotmem := (List.nodup_cons.mp hmid).1
      rw [List.mem_append] at hnotmem
      push_neg at hnotmem
      rw [hsplit]
      rw [foldl_row_single_hit (fun d => setStateToFailure (convertNeDbJobToJob d) cleanupMessage now)
        L1 L2 r r ?_ ?_ (failRow_id r cleanupMessage now)]
      · rw [cleanupRow, if_pos hrs]
      · intro d hd
        rw [failRow_id]
        intro he
        exact hnotmem.1 (he ▸ List.mem_map_of_mem (fun d => d._id) hd)
      · intro d hd
        rw [failRow_id]
        intro he
        exact hnotmem.2 (he ▸ List.mem_map_of_mem (fun d => d._id) hd)
    · rw [foldl_row_no_hit _ _ r ?_, cleanupRow, if_neg hrs]
      intro d hd
      rw [failRow_id]
      intro he
      have hdmem := mem_listJobsDocs.mp hd
      have hdr : d = r := List.inj_on_of_nodup_map h hdmem.1 hr he
      rw [hdr] at hdmem
      exact hrs hdmem.2
  · intro d hd
    rw [cleanupRow, if_neg hd]
  · intro d hd
    rw [cleanupRow, if_pos hd]
    exact ⟨rfl, rfl, rfl, rfl, rfl⟩

/-- C2 witness: the amended theorem evaluated on a two-row store holding one
ACTIVE and one INACTIVE job. -/
theorem C2_crash_recovery_witness :
    createQueueDb [docActive, docB] 5 =
      [cleanupRow 5 docActive, cleanupRow 5 docB] ∧
    cleanupRow 5 docB = docB ∧
    (cleanupRow 5 docActive).state = some State.FAILURE ∧
    (cleanupRow 5 docActive).logs = docActive.logs ++ [cleanupMessage] := by
  have h := C2_crash_recovery [docActive, docB] 5 (by decide)
  refine ⟨h.1, h.2.1 docB (by decide), ?_, ?_⟩
  · exact (h.2.2 docActive (by decide)).1
  · exact (h.2.2 docActive (by decide)).2.1

/-! ## Lemmas on the waiter map -/

lemma lookup_updWaiting_self :
    ∀ (m : List (String × List Waiter)) (ty : String) (l : List Waiter),
      (updWaiting m ty l).lookup ty = some l := by
  intro m
  induction m with
  | nil => intro ty l; simp [updWaiting, List.lookup]
  | cons kv m ih =>
    intro ty l
    obtain ⟨k, v⟩ := kv
    rw [updWaiting]
    by_cases hk : k = ty
    · rw [if_pos (by simp [hk]), List.lookup]
      simp
    · rw [if_neg (by simp [hk]), List.lookup]
      have : (ty == k) = false := by simp [beq_iff_eq]; exact fun he => hk he.symm
      rw [this]
      exact ih ty l

lemma lookup_updWaiting_ne :
    ∀ (m : List (String × List Waiter)) (ty ty' : String) (l : List Waiter),
      ty' ≠ ty → (updWaiting m ty l).lookup ty' = m.lookup ty' := by
  intro m
  induction m with
  | nil =>
    intro ty ty' l hne
    have h1 : (ty' == ty) = false := by simp [beq_iff_eq, hne]
    simp [updWaiting, List.lookup, h1]
  | cons kv m ih =>
    intro ty ty' l hne
    obtain ⟨k, v⟩ := kv
    rw [updWaiting]
    by_cases hk : k = ty
    · rw [if_pos (by simp [hk]), List.lookup, List.lookup]
      have h1 : (ty' == ty) = false := by simp [beq_iff_eq, hne]
      have h2 : (ty' == k) = false := by simp [beq_iff_eq, hk, hne]
      rw [h1, h2]
    · rw [if_neg (by simp [hk]), List.lookup, List.lookup]
      by_cases hk' : ty' = k
      · simp [hk']
      · have : (ty' == k) = false := by simp [beq_iff_eq, hk']
        rw [this]
        exact ih ty ty' l hne

/-! ## C3 -/

/-- C3: when the waiter FIFO for the type exists and is non-empty,
`Queue.requestJobForProcessing` parks: the outcome is the pending continuation
of a waiter appended at the tail of that FIFO, the store is not queried or
written (db unchanged, no job claimed), and every other type's FIFO is
untouched. -/
theorem C3_fast_park (st : QueueSt) (ty : String) (w : Waiter) (now : Nat)
    (l : List Waiter) (hl : getWaiting st ty = some l) (hne : l ≠ []) :
    (requestJobForProcessing st ty w now).1 = .parked w ∧
    (requestJobForProcessing st ty w now).2.db = st.db ∧
    getWaiting (requestJobForProcessing st ty w now).2 ty = some (l ++ [w]) ∧
    ∀ ty', ty' ≠ ty →
      getWaiting (requestJobForProcessing st ty w now).2 ty' = getWaiting st ty' := by
  have hlen : 0 < l.length := List.length_pos.mpr hne
  have hreq : requestJobForProcessing st ty w now =
      (.parked w, { st with waiting := updWaiting st.waiting ty (l ++ [w]) }) := by
    unfold requestJobForProcessing
    rw [hl]
    simp [hlen]
  rw [hreq]
  refine ⟨rfl, rfl, ?_, ?_⟩
  · exact lookup_updWaiting_self st.waiting ty (l ++ [w])
  · intro ty' hne'
    exact lookup_updWaiting_ne st.waiting ty ty' (l ++ [w]) hne'

/-- C3 witness: the fast-park theorem evaluated on a queue state whose
type-"t" FIFO holds the waiter 7. -/
theorem C3_fast_park_witness :
    (requestJobForProcessing qStWaiters "t" ⟨9, true⟩ 0).1 = .parked ⟨9, true⟩ ∧
    (requestJobForProcessing qStWaiters "t" ⟨9, true⟩ 0).2.db = qStWaiters.db ∧
    getWaiting (requestJobForProcessing qStWaiters "t" ⟨9, true⟩ 0).2 "t" =
      some [⟨7, true⟩, ⟨9, true⟩] := by
  have h := C3_fast_park qStWaiters "t" ⟨9, true⟩ 0 [⟨7, true⟩] rfl (by decide)
  exact ⟨h.1, h.2.1, h.2.2.1⟩

/-! ## C4 -/

/-- C4: when the slow path runs (no parked waiters for the type), a candidate
INACTIVE job exists, and `stillInterested()` reports false, the call returns
null and the whole queue state — store and waiter map — is exactly unchanged;
in particular the candidate row is still found INACTIVE by the same query. -/
theorem C4_disinterested_no_claim (st : QueueSt) (ty : String) (w : Waiter)
    (now : Nat) (d : NeDbJob)
    (hfast : getWaiting st ty = none ∨ getWaiting st ty = some [])
    (hfind : findInactiveJobByType st.db ty = some d)
    (hw : w.stillRequest = false) :
    requestJobForProcessing st ty w now = (.nullReturned, st) ∧
    d ∈ st.db ∧ d.state = some State.INACTIVE ∧
    findInactiveJobByType (requestJobForProcessing st ty w now).2.db ty = some d := by
  have hslow : requestSlow st ty w now = (.nullReturned, st) := by
    unfold requestSlow
    rw [hfind]
    simp [hw]
  have hmain : requestJobForProcessing st ty w now = (.nullReturned, st) := by
    unfold requestJobForProcessing
    rcases hfast with hfast | hfast
    · rw [hfast]
      exact hslow
    · rw [hfast]
      simpa using hslow
  have hd := (C1_findInactive_largest_priority st.db ty).1 d hfind
  exact ⟨hmain, hd.1, hd.2.2.1, by rw [hmain]; exact hfind⟩

/-- C4 witness: the theorem evaluated on a store holding two INACTIVE jobs and
an empty waiter map, with a waiter that has lost interest. -/
theorem C4_disinterested_no_claim_witness :
    requestJobForProcessing qStEmpty "t" ⟨3, false⟩ 9 = (.nullReturned, qStEmpty) ∧
    docA ∈ qStEmpty.db := by
  have h := C4_disinterested_no_claim qStEmpty "t" ⟨3, false⟩ 9 docA
    (Or.inl rfl) (by decide) rfl
  exact ⟨h.1, h.2.1⟩

/-! ## Lemmas on the addJob handoff -/

lemma popUntilInterested_none :
    ∀ l : List Waiter, (popUntilInterested l).1 = none →
      (∀ x ∈ l, x.stillRequest = false) ∧ (popUntilInterested l).2 = [] := by
  intro l
  induction l with
  | nil => intro _; exact ⟨fun x hx => absurd hx (List.not_mem_nil x), rfl⟩
  | cons w ws ih =>
    intro h
    rw [popUntilInterested] at h ⊢
    by_cases hw : w.stillRequest = true
    · rw [if_pos hw] at h
      exact Option.noConfusion h
    · rw [if_neg hw] at h ⊢
      have := ih h
      refine ⟨?_, this.2⟩
      intro x hx
      rcases List.mem_cons.mp hx with rfl | hx'
      · simpa using hw
      · exact this.1 x hx'

lemma popUntilInterested_some :
    ∀ (l : List Waiter) (w : Waiter), (popUntilInterested l).1 = some w →
      w.stillRequest = true ∧
      ∃ dropped, l = dropped ++ w :: (popUntilInterested l).2 ∧
        ∀ x ∈ dropped, x.stillRequest = false := by
  intro l
  induction l with
  | nil => intro w h; exact Option.noConfusion h
  | cons v ws ih =>
    intro w h
    rw [popUntilInterested] at h ⊢
    by_cases hv : v.stillRequest = true
    · rw [if_pos hv] at h ⊢
      obtain rfl : v = w := by simpa using h
      exact ⟨hv, [], rfl, fun x hx => absurd hx (List.not_mem_nil x)⟩
    · rw [if_neg hv] at h ⊢
      obtain ⟨hw, dropped, hsplit, hdropped⟩ := ih w h
      refine ⟨hw, v :: dropped, by rw [List.cons_append, ← hsplit], ?_⟩
      intro x hx
      rcases List.mem_cons.mp hx with rfl | hx'
      · simpa using hv
      · exact hdropped x hx'

lemma findJobDoc_append_not_present {db : List NeDbJob} {i : String}
    (h : db.any (fun r => r._id == i) = false) (d : NeDbJob) :
    findJobDoc (db ++ [d]) i = if d._id == i then some d else none := by
  induction db with
  | nil =>
    cases hd : d._id == i <;> simp [findJobDoc, List.find?, hd]
  | cons r rest ih =>
    rw [List.any_cons, Bool.or_eq_false_iff] at h
    rw [List.cons_append, findJobDoc, List.find?]
    rw [h.1]
    exact ih h.2

lemma findJobDoc_writeRow (db : List NeDbJob) (job : Job) (i : String) :
    findJobDoc (writeRow db job) i =
      (findJobDoc db i).map
        (fun d => if d._id == job.id then applyUpdateSet job d else d) := by
  induction db with
  | nil => rfl
  | cons r rest ih =>
    rw [writeRow, List.map_cons, findJobDoc, List.find?]
    have hid : (if r._id == job.id then applyUpdateSet job r else r)._id = r._id := by
      by_cases h : (r._id == job.id) = true
      · rw [if_pos h]; rfl
      · rw [if_neg (by simpa using h)]
    rw [hid]
    by_cases h : (r._id == i) = true
    · rw [h, findJobDoc, List.find?, h]
      rfl
    · rw [Bool.not_eq_true] at h
      rw [h, findJobDoc, List.find?, h]
      exact ih

/-! ## C5 -/

/-- C5: when `Queue.addJob` persists a new job and a waiter FIFO exists for
its type, waiters are popped from the head until one reports interest or the
FIFO is exhausted; dropped waiters are neither resolved nor rejected; a
willing waiter gets the job transitioned INACTIVE→ACTIVE and its continuation
resolved with the job only through the `process.nextTick` deferral (nothing
resolves synchronously); with no willing waiter the stored job stays
INACTIVE. -/
theorem C5_addJob_handoff (st : QueueSt) (job : Job) (now : Nat) (l : List Waiter)
    (hl : getWaiting st job.type = some l)
    (hstate : job.state = some State.INACTIVE)
    (hid : st.db.any (fun r => r._id == job.id) = false) :
    (addJob st job now).1.resolvedNow = [] ∧
    (addJob st job now).1.rejected = [] ∧
    ((popUntilInterested l).1 = none →
      (∀ x ∈ l, x.stillRequest = false) ∧
      (addJob st job now).1.result = .ok () ∧
      (addJob st job now).1.resolvedDeferred = [] ∧
      findJobDoc (addJob st job now).2.db job.id = some (insertDoc job) ∧
      (insertDoc job).state = some State.INACTIVE) ∧
    (∀ w, (popUntilInterested l).1 = some w →
      w.stillRequest = true ∧
      (∃ dropped, l = dropped ++ w :: (popUntilInterested l).2 ∧
        ∀ x ∈ dropped, x.stillRequest = false) ∧
      (addJob st job now).1.result = .ok () ∧
      (addJob st job now).1.resolvedDeferred = [(w, activeVersion job now)] ∧
      (activeVersion job now).state = some State.ACTIVE ∧
      findJobDoc (addJob st job now).2.db job.id =
        some (applyUpdateSet (activeVersion job now) (insertDoc job)) ∧
      (applyUpdateSet (activeVersion job now) (insertDoc job)).state =
        some State.ACTIVE) := by
  have hact : setStateToActive (convertNeDbJobToJob (insertDoc job)) now =
      .ok (activeVersion job now) := by
    rw [setStateToActive, if_pos ?_]
    · rfl
    · show (insertDoc job).state = some State.INACTIVE
      rw [insertDoc]
      exact hstate
  have hany1 : ((st.db ++ [insertDoc job]).any
      (fun r => r._id == (activeVersion job now).id)) = true := by
    rw [List.any_append]
    apply Bool.or_eq_true_iff.mpr
    apply Or.inr
    simp [insertDoc, activeVersion, convertNeDbJobToJob]
  have hupd : updateJob (st.db ++ [insertDoc job]) (activeVersion job now) =
      .ok (writeRow (st.db ++ [insertDoc job]) (activeVersion job now)) := by
    rw [updateJob]
    rw [hany1]
    rfl
  have hfound : findJobDoc (st.db ++ [insertDoc job]) job.id = some (insertDoc job) := by
    rw [findJobDoc_append_not_present hid]
    rw [if_pos (by simp [insertDoc])]
  have hround : findJobDoc (writeRow (st.db ++ [insertDoc job]) (activeVersion job now))
      job.id = some (applyUpdateSet (activeVersion job now) (insertDoc job)) := by
    have hveq : (activeVersion job now).id = job.id := rfl
    rw [findJobDoc_writeRow, hveq, hfound, Option.map_some']
    rw [if_pos (by simp [insertDoc])]
  rcases hpop : (popUntilInterested l).1 with _ | w
  · -- no willing waiter: the job stays INACTIVE
    have haddeq : addJob st job now =
        ({ result := .ok () },
          { st with db := st.db ++ [insertDoc job],
                    waiting := updWaiting st.waiting job.type (popUntilInterested l).2 }) := by
      rw [addJob]
      rw [hid]
      simp only [Bool.false_eq_true, if_false, hl]
      rw [hpop]
    refine ⟨by rw [haddeq], by rw [haddeq], ?_, ?_⟩
    · intro _
      have hnone := popUntilInterested_none l hpop
      refine ⟨hnone.1, by rw [haddeq], by rw [haddeq], ?_, ?_⟩
      · rw [haddeq]
        exact hfound
      · rw [insertDoc]
        exact hstate
    · intro w hw
      exact Option.noConfusion hw
  · -- willing waiter found: handoff
    have haddeq : addJob st job now =
        ({ result := .ok (), resolvedDeferred := [(w, activeVersion job now)] },
          { st with db := writeRow (st.db ++ [insertDoc job]) (activeVersion job now),
                    waiting := updWaiting st.waiting job.type (popUntilInterested l).2 }) := by
      rw [addJob]
      rw [hid]
      simp only [Bool.false_eq_true, if_false, hl]
      simp only [hpop, hact, hupd]
    refine ⟨by rw [haddeq], by rw [haddeq], ?_, ?_⟩
    · intro hcontra
      exact Option.noConfusion hcontra
    · intro w' hw'
      obtain rfl : w = w' := by simpa using hw'
      obtain ⟨hwr, dropped, hsplit, hdropped⟩ := popUntilInterested_some l w hpop
      refine ⟨hwr, ⟨dropped, hsplit, hdropped⟩, by rw [haddeq], by rw [haddeq], rfl, ?_, rfl⟩
      rw [haddeq]
      exact hround

/-- C5 witness: the handoff theorem evaluated on a FIFO holding a
disinterested waiter ahead of a willing one. -/
theorem C5_addJob_handoff_witness :
    (addJob qStPark jobNew 4).1.resolvedNow = [] ∧
    (addJob qStPark jobNew 4).1.rejected = [] ∧
    (addJob qStPark jobNew 4).1.resolvedDeferred =
      [(⟨2, true⟩, activeVersion jobNew 4)] ∧
    (activeVersion jobNew 4).state = some State.ACTIVE := by
  have h := C5_addJob_handoff qStPark jobNew 4 [⟨1, false⟩, ⟨2, true⟩] rfl rfl rfl
  have h2 := h.2.2.2 ⟨2, true⟩ (by decide)
  exact ⟨h.1, h.2.1, h2.2.2.2.1, h2.2.2.2.2.1⟩

/-! ## C6 -/

lemma any_removeJobDoc (db : List NeDbJob) (i : String) :
    (removeJobDoc db i).any (fun d => d._id == i) = false := by
  rw [removeJobDoc, Bool.eq_false_iff]
  intro h
  obtain ⟨d, hd, hdi⟩ := List.any_eq_true.mp h
  have := (List.mem_filter.mp hd).2
  rw [beq_iff_eq] at hdi
  simp [hdi] at this

/-- C6: `Repository.update` (`JobRepository.updateJob`) succeeds exactly when
a row with the job's id exists (NeDB's unique `_id`, no `multi`: exactly one
row affected), and otherwise throws the affected-rows error; in particular
updating after the row was removed, or into a store never holding the id,
fails. -/
theorem C6_update_exactly_one_row (db : List NeDbJob) (job : Job) :
    ((∃ db2, updateJob db job = .ok db2) ↔ ∃ d ∈ db, d._id = job.id) ∧
    ((∃ d ∈ db, d._id = job.id) → updateJob db job = .ok (writeRow db job)) ∧
    ((∀ d ∈ db, d._id ≠ job.id) →
      updateJob db job =
        .error "update unexpected number of rows. (expected: 1, actual: 0)") ∧
    updateJob (removeJobDoc db job.id) job =
      .error "update unexpected number of rows. (expected: 1, actual: 0)" := by
  have hok : ∀ h : db.any (fun d => d._id == job.id) = true,
      updateJob db job = .ok (writeRow db job) := by
    intro h
    rw [updateJob, h]
    rfl
  have herr : ∀ h : db.any (fun d => d._id == job.id) = false,
      updateJob db job =
        .error "update unexpected number of rows. (expected: 1, actual: 0)" := by
    intro h
    rw [updateJob, h]
    rfl
  have hiff : db.any (fun d => d._id == job.id) = true ↔ ∃ d ∈ db, d._id = job.id := by
    rw [List.any_eq_true]
    constructor
    · rintro ⟨d, hd, hdi⟩
      exact ⟨d, hd, beq_iff_eq.mp hdi⟩
    · rintro ⟨d, hd, hdi⟩
      exact ⟨d, hd, beq_iff_eq.mpr hdi⟩
  refine ⟨?_, ?_, ?_, ?_⟩
  · constructor
    · rintro ⟨db2, hdb2⟩
      apply hiff.mp
      by_contra hfalse
      rw [Bool.not_eq_true] at hfalse
      rw [herr hfalse] at hdb2
      exact Except.noConfusion hdb2
    · intro h
      exact ⟨writeRow db job, hok (hiff.mpr h)⟩
  · intro h
    exact hok (hiff.mpr h)
  · intro h
    apply herr
    rw [Bool.eq_false_iff]
    intro hcontra
    obtain ⟨d, hd, hdi⟩ := hiff.mp hcontra
    exact h d hd hdi
  · rw [updateJob, any_removeJobDoc]
    rfl

/-- C6 witness: updating an existing row succeeds; updating after removal of
that row fails with the affected-rows error. -/
theorem C6_update_exactly_one_row_witness :
    updateJob [docA] { convertNeDbJobToJob docA with progress := some 50 } =
      .ok (writeRow [docA] { convertNeDbJobToJob docA with progress := some 50 }) ∧
    updateJob (removeJobDoc [docA] "a")
        { convertNeDbJobToJob docA with progress := some 50 } =
      .error "update unexpected number of rows. (expected: 1, actual: 0)" := by
  have h := C6_update_exactly_one_row [docA]
    { convertNeDbJobToJob docA with progress := some 50 }
  exact ⟨h.2.1 ⟨docA, by decide, rfl⟩, h.2.2.2⟩

/-! ## C8 -/

/-- C8: every job the Queue materializes has a priority in the known set: a
stored unknown priority is coerced to NORMAL with a warning (not a failure),
known values pass through unwarned, and `createJob`'s priority (defaulting to
NORMAL when omitted) goes through the same `sanitizePriority`. -/
theorem C8_priority_sanitized (p : Int) (d : NeDbJob) (po : Option Int) :
    (knownPriority p = true → sanitizePriority p = p ∧ sanitizeWarned p = false) ∧
    (knownPriority p = false →
      sanitizePriority p = Priority.NORMAL ∧ sanitizeWarned p = true) ∧
    knownPriority (sanitizePriority p) = true ∧
    (convertNeDbJobToJob d).priority = sanitizePriority d.priority ∧
    knownPriority (convertNeDbJobToJob d).priority = true ∧
    createJobPriority po = sanitizePriority (po.getD Priority.NORMAL) ∧
    createJobPriority none = Priority.NORMAL ∧
    knownPriority (createJobPriority po) = true := by
  have hsan : ∀ q : Int, knownPriority (sanitizePriority q) = true := by
    intro q
    rw [sanitizePriority]
    by_cases hq : knownPriority q = true
    · rw [if_pos hq]
      exact hq
    · rw [if_neg hq]
      decide
  refine ⟨?_, ?_, hsan p, rfl, hsan d.priority, rfl, by decide, hsan _⟩
  · intro h
    rw [sanitizePriority, sanitizeWarned, if_pos h, h]
    exact ⟨rfl, rfl⟩
  · intro h
    rw [sanitizePriority, sanitizeWarned, if_neg (by simp [h]), h]
    exact ⟨rfl, rfl⟩

/-- C8 witness: the sanitizer evaluated at the known value LOW (passes
through, no warning) and at the unknown value 3 (coerced to NORMAL, warned),
and the createJob default. -/
theorem C8_priority_sanitized_witness :
    sanitizePriority 10 = 10 ∧ sanitizeWarned 10 = false ∧
    sanitizePriority 3 = Priority.NORMAL ∧ sanitizeWarned 3 = true ∧
    createJobPriority none = Priority.NORMAL := by
  have h10 := C8_priority_sanitized 10 docA none
  have h3 := C8_priority_sanitized 3 docA none
  obtain ⟨ha, hb⟩ := h10.1 (by decide)
  obtain ⟨hc, hd⟩ := h3.2.1 (by decide)
  exact ⟨ha, hb, hc, hd, h10.2.2.2.2.2.2.1⟩

/-! ## C9 -/

lemma getD_append_lt {α : Type} :
    ∀ (l l' : List α) (i : Nat) (d : α), i < l.length →
      (l ++ l').getD i d = l.getD i d := by
  intro l
  induction l with
  | nil => intro l' i d h; exact absurd h (by simp)
  | cons a l ih =>
    intro l' i d h
    match i with
    | 0 => rfl
    | i + 1 =>
      have : i < l.length := by simpa using h
      exact ih l' i d this

lemma getD_append_self {α : Type} :
    ∀ (l : List α) (x d : α), (l ++ [x]).getD l.length d = x := by
  intro l
  induction l with
  | nil => intro x d; rfl
  | cons a l ih => intro x d; exact ih x d

lemma getD_set_ne {α : Type} :
    ∀ (l : List α) (i j : Nat) (v d : α), i ≠ j →
      (l.set i v).getD j d = l.getD j d := by
  intro l
  induction l with
  | nil => intro i j v d _; rfl
  | cons a l ih =>
    intro i j v d h
    match i, j with
    | 0, 0 => exact absurd rfl h
    | 0, j + 1 => rfl
    | i + 1, 0 => rfl
    | i + 1, j + 1 => exact ih i j v d (by omega)

/-- C9: `get workers()` returns a fresh copy of the internal registry: the
returned array reference is distinct from the registry's, holds equal
contents, and mutating the returned array (any overwrite of its cell) leaves
the registry's contents — and hence what `process`/`shutdown` later read —
unchanged. -/
theorem C9_workers_getter_fresh_copy (h : ArrHeap) (reg : Nat)
    (hreg : reg < h.cells.length) :
    (workersGetter h reg).1 ≠ reg ∧
    readArr (workersGetter h reg).2 (workersGetter h reg).1 = readArr h reg ∧
    readArr (workersGetter h reg).2 reg = readArr h reg ∧
    ∀ v, readArr (writeArr (workersGetter h reg).2 (workersGetter h reg).1 v) reg =
      readArr h reg := by
  refine ⟨?_, ?_, ?_, ?_⟩
  · show h.cells.length ≠ reg
    omega
  · show (h.cells ++ [readArr h reg]).getD h.cells.length [] = readArr h reg
    exact getD_append_self h.cells _ []
  · show (h.cells ++ [readArr h reg]).getD reg [] = readArr h reg
    exact getD_append_lt h.cells _ reg [] hreg
  · intro v
    show ((h.cells ++ [readArr h reg]).set h.cells.length v).getD reg [] = readArr h reg
    rw [getD_set_ne _ _ _ _ _ (by omega)]
    exact getD_append_lt h.cells _ reg [] hreg

/-- C9 witness: the getter theorem evaluated on a one-cell heap holding one
registered worker. -/
theorem C9_workers_getter_fresh_copy_witness :
    (workersGetter ⟨[[⟨"t"⟩]]⟩ 0).1 ≠ 0 ∧
    readArr (writeArr (workersGetter ⟨[[⟨"t"⟩]]⟩ 0).2 (workersGetter ⟨[[⟨"t"⟩]]⟩ 0).1 []) 0 =
      readArr ⟨[[⟨"t"⟩]]⟩ 0 := by
  have h := C9_workers_getter_fresh_copy ⟨[[⟨"t"⟩]]⟩ 0 (by decide)
  exact ⟨h.1, h.2.2.2 []⟩

/-! ## C10 -/

lemma removeGo_prefix_err (cb : Job → Except String Bool)
    (rm : Job → Except String Unit) (e : String) (dfail : NeDbJob) :
    ∀ (pre suf db : List NeDbJob) (acc : List Job),
      (∀ x ∈ pre,
        (cb (convertNeDbJobToJob x) = .ok true ∧ rm (convertNeDbJobToJob x) = .ok ()) ∨
          cb (convertNeDbJobToJob x) = .ok false) →
      (cb (convertNeDbJobToJob dfail) = .error e ∨
        (cb (convertNeDbJobToJob dfail) = .ok true ∧
          rm (convertNeDbJobToJob dfail) = .error e)) →
      removeJobsByCallbackGo cb rm (pre ++ dfail :: suf) db acc =
        (.error e, removedPrefixDb cb db pre,
          [.errorEv e (some (convertNeDbJobToJob dfail))]) := by
  intro pre
  induction pre with
  | nil =>
    intro suf db acc _ hfail
    rcases hfail with hf | ⟨hf1, hf2⟩
    · simp only [List.nil_append, removeJobsByCallbackGo, hf, removedPrefixDb,
        List.foldl_nil]
    · simp only [List.nil_append, removeJobsByCallbackGo, hf1, hf2, removedPrefixDb,
        List.foldl_nil]
  | cons x pre ih =>
    intro suf db acc hpre hfail
    have hrest : ∀ y ∈ pre,
        (cb (convertNeDbJobToJob y) = .ok true ∧ rm (convertNeDbJobToJob y) = .ok ()) ∨
          cb (convertNeDbJobToJob y) = .ok false :=
      fun y hy => hpre y (List.mem_cons_of_mem x hy)
    rcases hpre x (List.mem_cons_self x pre) with ⟨hcb, hrm⟩ | hcb
    · rw [List.cons_append]
      simp only [removeJobsByCallbackGo, hcb, hrm]
      rw [ih suf _ _ hrest hfail]
      simp only [removedPrefixDb, List.foldl_cons, hcb]
      rfl
    · rw [List.cons_append]
      simp only [removeJobsByCallbackGo, hcb]
      rw [ih suf _ _ hrest hfail]
      simp only [removedPrefixDb, List.foldl_cons, hcb]

/-- C10: `Queue.removeJobsByCallback` is not atomic on error: when the
predicate (or a removal) throws at some document of the snapshot after a
prefix has been processed, the jobs removed for the truthy prefix stay
removed from the store, the error is emitted with the job in scope and
re-raised as the result, and the caller gets the error instead of the list of
already-removed jobs. -/
theorem C10_partial_removal (db pre suf : List NeDbJob) (dfail : NeDbJob)
    (cb : Job → Except String Bool) (rm : Job → Except String Unit) (e : String)
    (hpre : ∀ x ∈ pre,
      (cb (convertNeDbJobToJob x) = .ok true ∧ rm (convertNeDbJobToJob x) = .ok ()) ∨
        cb (convertNeDbJobToJob x) = .ok false)
    (hfail : cb (convertNeDbJobToJob dfail) = .error e ∨
      (cb (convertNeDbJobToJob dfail) = .ok true ∧
        rm (convertNeDbJobToJob dfail) = .error e)) :
    removeJobsByCallbackQ (.ok (pre ++ dfail :: suf)) cb rm db =
      (.error e, removedPrefixDb cb db pre,
        [.errorEv e (some (convertNeDbJobToJob dfail))]) := by
  rw [removeJobsByCallbackQ]
  exact removeGo_prefix_err cb rm e dfail pre suf db [] hpre hfail

/-- C10 witness: the snapshot [docA, docB] with a predicate that removes
docA and throws "boom" at docB: docA stays removed, the error is emitted and
returned, and no removed-jobs list is produced. -/
theorem C10_partial_removal_witness :
    removeJobsByCallbackQ (.ok [docA, docB]) cbBoom rmOk [docA, docB] =
      (.error "boom", [docB],
        [.errorEv "boom" (some (convertNeDbJobToJob docB))]) := by
  have hpre : ∀ x ∈ [docA],
      (cbBoom (convertNeDbJobToJob x) = .ok true ∧
        rmOk (convertNeDbJobToJob x) = .ok ()) ∨
        cbBoom (convertNeDbJobToJob x) = .ok false := by
    intro x hx
    have hxa : x = docA := by simpa using hx
    subst hxa
    left
    exact ⟨rfl, rfl⟩
  have h := C10_partial_removal [docA, docB] [docA] [] docB cbBoom rmOk "boom"
    hpre (Or.inl rfl)
  exact h

/-! ## C7 -/

lemma removeGo_error_emits (cb : Job → Except String Bool)
    (rm : Job → Except String Unit) :
    ∀ (snap db : List NeDbJob) (acc : List Job) (e : String),
      (removeJobsByCallbackGo cb rm snap db acc).1 = .error e →
      ∃ oj, (removeJobsByCallbackGo cb rm snap db acc).2.2 = [.errorEv e oj] := by
  intro snap
  induction snap with
  | nil =>
    intro db acc e h
    exact absurd h (by simp [removeJobsByCallbackGo])
  | cons d rest ih =>
    intro db acc e h
    cases hcb : cb (convertNeDbJobToJob d) with
    | error e' =>
      simp only [removeJobsByCallbackGo, hcb] at h ⊢
      obtain rfl : e' = e := by simpa using h
      exact ⟨some (convertNeDbJobToJob d), rfl⟩
    | ok b =>
      cases b with
      | false =>
        simp only [removeJobsByCallbackGo, hcb] at h ⊢
        exact ih _ _ e h
      | true =>
        cases hrm : rm (convertNeDbJobToJob d) with
        | error e' =>
          simp only [removeJobsByCallbackGo, hcb, hrm] at h ⊢
          obtain rfl : e' = e := by simpa using h
          exact ⟨some (convertNeDbJobToJob d), rfl⟩
        | ok u =>
          simp only [removeJobsByCallbackGo, hcb, hrm] at h ⊢
          exact ih _ _ e h

/-- C7: every error arising in a job/storage operation of a Queue public
method (`findJob`, `listJobs`, `removeJobById`, `removeJobsByCallback`,
`requestJobForProcessing`, `addJob`, `updateJob`, `removeJob`) is both emitted
as an `Error` event — with the affected Job when the method has one — and
re-raised unchanged to the caller. -/
theorem C7_error_emit_and_rethrow (e : String) (job : Job) (d : NeDbJob)
    (st : QueueSt) (now : Nat) (db : List NeDbJob)
    (cb : Job → Except String Bool) (rm : Job → Except String Unit) (i : String)
    (res : Except String (List NeDbJob)) :
    findJobQ (.error e) = (.error e, [.errorEv e none]) ∧
    listJobsQ (.error e) = (.error e, [.errorEv e none]) ∧
    removeJobByIdQ (.error e) rm i = (.error e, [.errorEv e none]) ∧
    ((∀ j, rm j = .error e) →
      removeJobByIdQ (.ok (some d)) rm i =
        (.error e, [.errorEv e (some (convertNeDbJobToJob d))])) ∧
    (removeJobsByCallbackQ (.error e) cb rm db).1 = .error e ∧
    (removeJobsByCallbackQ (.error e) cb rm db).2.2 = [.errorEv e none] ∧
    ((removeJobsByCallbackQ res cb rm db).1 = .error e →
      ∃ oj, (removeJobsByCallbackQ res cb rm db).2.2 = [.errorEv e oj]) ∧
    requestJobCatch (.error e) = (.error e, [.errorEv e none]) ∧
    ((addJobQ st job now).1.1.result = .error e →
      (addJobQ st job now).2 = [.errorEv e (some job)]) ∧
    updateJobQ job (.error e) = (.error e, [.errorEv e (some job)]) ∧
    removeJobQ job (.error e) = (.error e, [.errorEv e (some job)]) := by
  refine ⟨rfl, rfl, rfl, ?_, rfl, rfl, ?_, rfl, ?_, rfl, rfl⟩
  · intro h
    simp only [removeJobByIdQ, catchEmit, h (convertNeDbJobToJob d)]
    rfl
  · intro h
    cases res with
    | error e' =>
      simp only [removeJobsByCallbackQ] at h ⊢
      obtain rfl : e' = e := by simpa using h
      exact ⟨none, rfl⟩
    | ok snap =>
      simp only [removeJobsByCallbackQ] at h ⊢
      exact removeGo_error_emits cb rm snap db [] e h
  · intro h
    cases hres : (addJob st job now).1.result with
    | error e' =>
      have haq : addJobQ st job now = (addJob st job now, [.errorEv e' (some job)]) := by
        simp only [addJobQ, hres]
      rw [haq] at h ⊢
      rw [hres] at h
      obtain rfl : e' = e := by simpa using h
      rfl
    | ok u =>
      have haq : addJobQ st job now = (addJob st job now, []) := by
        simp only [addJobQ, hres]
      rw [haq] at h
      rw [hres] at h
      exact Except.noConfusion h

/-- C7 witness: the propagation theorem evaluated at concrete failing
operations — a failing find, a failing removal with the job at hand, a failing
list, and a colliding insert of `addJob` whose error is emitted with the job
and surfaced in the result. -/
theorem C7_error_emit_and_rethrow_witness :
    findJobQ (.error "boom") = (.error "boom", [.errorEv "boom" none]) ∧
    removeJobByIdQ (.ok (some docA)) rmBoom "a" =
      (.error "boom", [.errorEv "boom" (some (convertNeDbJobToJob docA))]) ∧
    (∃ oj, (removeJobsByCallbackQ (.error "boom") cbBoom rmBoom []).2.2 =
      [.errorEv "boom" oj]) ∧
    (addJobQ qStDup jobNew 0).2 =
      [.errorEv "Can't insert key, unique constraint violated" (some jobNew)] ∧
    (addJobQ qStDup jobNew 0).1.1.result =
      .error "Can't insert key, unique constraint violated" := by
  have h1 := C7_error_emit_and_rethrow "boom" jobNew docA qStDup 0 [] cbBoom rmBoom "a"
    (.error "boom")
  have h2 := C7_error_emit_and_rethrow "Can't insert key, unique constraint violated"
    jobNew docA qStDup 0 [] cbBoom rmBoom "a" (.error "boom")
  refine ⟨h1.1, h1.2.2.2.1 (fun j => rfl), h1.2.2.2.2.2.2.1 rfl, ?_, rfl⟩
  exact h2.2.2.2.2.2.2.2.2.1 rfl

end EmbeddedQueue
